import Mathlib

/-!
Shallow embedding of the heap-address legalizer
(`src/lib/codegen/src/legalizer/heap.rs`) and the global-value model
(`src/lib/codegen/src/ir/globalvalue.rs`) of the Cranelift excerpt.

The legalizer is a straight-line code emitter: each expansion walks a cursor
over one instruction and emits a fixed sequence of IR instructions, possibly
replacing the original instruction's defining operation in place and, on one
path, splitting the enclosing extended basic block.  We model an expansion as
the list of emitter calls it performs, in source order.  Emitted SSA values
are represented by the expression describing their defining operation, and a
small evaluator gives the runtime trap semantics of the emitted sequence for
concrete offset and global values.
-/

namespace Cranelift

/-- An IR integer type, identified by its width in bits (`ir::types`).
Heap offsets and addresses are integer-typed, so the width determines the
type. -/
structure Ty where
  bits : Nat
deriving DecidableEq, Repr

/-- The 32-bit integer type `ir::types::I32`. -/
def I32 : Ty := ⟨32⟩

/-- The 64-bit integer type `ir::types::I64`. -/
def I64 : Ty := ⟨64⟩

/-- The integer condition codes (`ir::condcodes::IntCC`) used by this pass.
Only the two unsigned comparisons appear in `heap.rs`. -/
inductive IntCC
  | UnsignedGreaterThanOrEqual
  | UnsignedGreaterThan
deriving DecidableEq, Repr

/-- Trap cause codes (`ir::TrapCode`); the legalizer only emits
heap-out-of-bounds traps. -/
inductive TrapCode
  | HeapOutOfBounds
deriving DecidableEq, Repr

/-- A reference to an extended basic block touched by the block-splitting
path of `static_addr`: either the block the cursor is currently in
(`curr_ebb`) or the freshly created one (`new_ebb`). -/
inductive EbbRef
  | curr
  | fresh
deriving DecidableEq, Repr

/-- An emitted SSA value, represented by the expression of its defining
operation.  `offsetArg` is the `offset` operand of the original `heap_addr`
instruction; `globalValue ty gv` is the runtime value of global value `gv`
materialized at type `ty`.  `iaddCoutSum`/`iaddCoutCarry` are the two results
of a single `iadd_cout` instruction. -/
inductive Expr
  | offsetArg
  | globalValue (ty : Ty) (gv : Nat)
  | iconst (ty : Ty) (imm : Int)
  | icmp (cc : IntCC) (a b : Expr)
  | icmpImm (cc : IntCC) (a : Expr) (imm : Int)
  | iaddImm (a : Expr) (imm : Int)
  | iaddCoutSum (a b : Expr)
  | iaddCoutCarry (a b : Expr)
  | uextend (ty : Ty) (a : Expr)
  | iadd (a b : Expr)
deriving DecidableEq, Repr

/-- One emitter call performed by an expansion, in source order: pure
instruction insertions (`pos.ins().…`), traps, the in-place replacement of
the original instruction's defining operation (`pos.func.dfg.replace(inst)`),
and the block-surgery calls (`make_ebb`, `insert_ebb`, `recompute_ebb`). -/
inductive EInst
  | globalValue (ty : Ty) (gv : Nat)
  | iconst (ty : Ty) (imm : Int)
  | icmp (cc : IntCC) (a b : Expr)
  | icmpImm (cc : IntCC) (a : Expr) (imm : Int)
  | iaddImm (a : Expr) (imm : Int)
  | iaddCout (a b : Expr)
  | uextend (ty : Ty) (a : Expr)
  | trapnz (cond : Expr) (code : TrapCode)
  | trap (code : TrapCode)
  | replaceIconst (ty : Ty) (imm : Int)
  | replaceIadd (a b : Expr)
  | makeEbb
  | insertEbb
  | recomputeEbb (which : EbbRef)
deriving DecidableEq, Repr

/-- The style of a heap (`ir::HeapStyle`): bound known only at the compiled
program's runtime through a global value, or a compile-time constant bound
(an `Imm64`, hence an `Int`). -/
inductive HeapStyle
  | Dynamic (bound_gv : Nat)
  | Static (bound : Int)
deriving DecidableEq, Repr

/-- A heap declaration (`ir::HeapData`): base global value, guaranteed
minimum size (`Imm64`), and style. -/
structure HeapData where
  base : Nat
  min_size : Int
  style : HeapStyle
deriving DecidableEq, Repr

/-- Runtime environment for evaluating emitted code: the concrete value of
the `offset` operand and of each global value, as unsigned integers. -/
structure Env where
  offsetVal : Nat
  gvVal : Nat → Nat

/-- Unsigned comparison semantics of the condition codes. -/
def ccHolds (cc : IntCC) (a b : Nat) : Bool :=
  match cc with
  | .UnsignedGreaterThanOrEqual => b ≤ a
  | .UnsignedGreaterThan => b < a

/-- Interpret a (possibly negative) immediate as an unsigned `w`-bit value:
two's-complement wrap-around. -/
def immToNat (w : Nat) (imm : Int) : Nat := (imm % 2 ^ w).toNat

/-- Evaluate an emitted SSA value in environment `env`.  `w` is the bit
width of the offset type; all arithmetic in the emitted bound checks happens
at that type, wrapping modulo `2 ^ w`.  Comparison results are `1`/`0`. -/
def Expr.eval (w : Nat) (env : Env) : Expr → Nat
  | .offsetArg => env.offsetVal
  | .globalValue _ gv => env.gvVal gv
  | .iconst _ imm => immToNat w imm
  | .icmp cc a b => if ccHolds cc (a.eval w env) (b.eval w env) then 1 else 0
  | .icmpImm cc a imm => if ccHolds cc (a.eval w env) (immToNat w imm) then 1 else 0
  | .iaddImm a imm => immToNat w ((a.eval w env : Int) + imm)
  | .iaddCoutSum a b => (a.eval w env + b.eval w env) % 2 ^ w
  | .iaddCoutCarry a b => if 2 ^ w ≤ a.eval w env + b.eval w env then 1 else 0
  | .uextend _ a => a.eval w env
  | .iadd a b => (a.eval w env + b.eval w env) % 2 ^ w

/-- Whether one emitted instruction halts execution: a `trapnz` whose
condition evaluates nonzero, or an unconditional `trap`. -/
def stepTrap (w : Nat) (env : Env) (i : EInst) : Option TrapCode :=
  match i with
  | .trapnz cond code => if cond.eval w env = 0 then none else some code
  | .trap code => some code
  | _ => none

/-- Run an emitted sequence in order.  Returns the cause of the first trap
that fires together with the instructions after it, which are never reached;
`none` when execution falls through the whole sequence. -/
def runTrace (w : Nat) (env : Env) : List EInst → Option (TrapCode × List EInst)
  | [] => none
  | i :: rest =>
    match stepTrap w env i with
    | some code => some (code, rest)
    | none => runTrace w env rest

/-- Emit the shared base-address computation of `compute_addr` in
`heap.rs`: zero-extend the offset when its type differs from the
address-width type, materialize the heap base global value, and replace the
original instruction in place by `iadd base offset`. -/
def compute_addr (heap : HeapData) (addr_ty : Ty) (offset_ty : Ty) : List EInst :=
  let offset0 : Expr := .offsetArg
  let (ext, offset) :=
    if offset_ty ≠ addr_ty then
      ([EInst.uextend addr_ty offset0], Expr.uextend addr_ty offset0)
    else
      ([], offset0)
  let base : Expr := .globalValue addr_ty heap.base
  ext ++ [EInst.globalValue addr_ty heap.base, EInst.replaceIadd base offset]

/-- Emit the expansion of a `heap_addr` for a dynamic heap (`dynamic_addr`
in `heap.rs`).  `access_size0` is the `u32` immediate, converted to `i64`
as in the source; `min_size` and the branch comparisons are on `i64`. -/
def dynamic_addr (heap : HeapData) (access_size0 : Nat) (bound_gv : Nat)
    (offset_ty : Ty) (addr_ty : Ty) : List EInst :=
  let access_size : Int := (access_size0 : Int)
  let min_size : Int := heap.min_size
  let bound : Expr := .globalValue offset_ty bound_gv
  let check : List EInst × Expr :=
    if access_size = 1 then
      -- `offset > bound - 1` is the same as `offset >= bound`.
      ([.icmp .UnsignedGreaterThanOrEqual .offsetArg bound],
       .icmp .UnsignedGreaterThanOrEqual .offsetArg bound)
    else if access_size ≤ min_size then
      -- bound >= min_size, so `offset > bound - access_size` cannot wrap.
      let adj_bound : Expr := .iaddImm bound (-access_size)
      ([.iaddImm bound (-access_size),
        .icmp .UnsignedGreaterThan .offsetArg adj_bound],
       .icmp .UnsignedGreaterThan .offsetArg adj_bound)
    else
      -- Overflow check for the adjusted offset.
      let access_size_val : Expr := .iconst offset_ty access_size
      let adj_offset : Expr := .iaddCoutSum .offsetArg access_size_val
      let overflow : Expr := .iaddCoutCarry .offsetArg access_size_val
      ([.iconst offset_ty access_size,
        .iaddCout .offsetArg access_size_val,
        .trapnz overflow .HeapOutOfBounds,
        .icmp .UnsignedGreaterThan adj_offset bound],
       .icmp .UnsignedGreaterThan adj_offset bound)
  .globalValue offset_ty bound_gv ::
    (check.1 ++ (.trapnz check.2 .HeapOutOfBounds :: compute_addr heap addr_ty offset_ty))

/-- Emit the expansion of a `heap_addr` for a static heap (`static_addr` in
`heap.rs`).  `bound` is the compile-time bound as `i64`. -/
def static_addr (heap : HeapData) (access_size0 : Nat) (bound : Int)
    (offset_ty : Ty) (addr_ty : Ty) : List EInst :=
  let access_size : Int := (access_size0 : Int)
  if bound < access_size then
    -- Always traps since `offset >= 0`; replace the result by a zero
    -- constant and split the ebb after the trap terminator.
    [.trap .HeapOutOfBounds, .replaceIconst addr_ty 0,
     .makeEbb, .insertEbb, .recomputeEbb .curr, .recomputeEbb .fresh]
  else
    -- Check `offset > limit`, which is now known non-negative.
    let limit : Int := bound - access_size
    let check : List EInst :=
      if offset_ty ≠ I32 ∨ limit < 0xffffffff then
        -- `limit & 1 == 1`: `limit` is non-negative on this path, so the
        -- bit test is parity.  Prefer an even immediate when `limit` is odd.
        if limit % 2 = 1 then
          [.icmpImm .UnsignedGreaterThanOrEqual .offsetArg (limit - 1),
           .trapnz (.icmpImm .UnsignedGreaterThanOrEqual .offsetArg (limit - 1))
             .HeapOutOfBounds]
        else
          [.icmpImm .UnsignedGreaterThan .offsetArg limit,
           .trapnz (.icmpImm .UnsignedGreaterThan .offsetArg limit) .HeapOutOfBounds]
      else
        []
    check ++ compute_addr heap addr_ty offset_ty

/-- The dispatcher `expand_heap_addr`: unpack the `heap_addr` instruction
(its `heap` operand, `offset` value and `access_size` immediate, with the
offset and result types read from the data-flow graph) and route by the
heap's declared style.  The wrong-opcode panic of the source concerns
instructions that are not `heap_addr` at all and is outside this model. -/
def expand_heap_addr (heap : HeapData) (access_size : Nat)
    (offset_ty : Ty) (addr_ty : Ty) : List EInst :=
  match heap.style with
  | .Dynamic bound_gv => dynamic_addr heap access_size bound_gv offset_ty addr_ty
  | .Static bound => static_addr heap access_size bound offset_ty addr_ty

/-- The data-flow graph as an arena of value definitions: each value id maps
to the expression of its defining operation.  `dfg.replace(inst)` mutates
the definition stored at the instruction's (fixed) result id; value ids held
by users are never renumbered. -/
structure DfgState where
  defOf : Nat → Expr

/-- Apply one emitter call to the value arena: the two `replace` calls
redefine the original instruction's result value `resultId` in place;
every other call leaves the arena untouched (freshly inserted instructions
define fresh values, which no pre-existing use refers to). -/
def applyEInst (resultId : Nat) (d : DfgState) : EInst → DfgState
  | .replaceIconst ty imm =>
    ⟨fun v => if v = resultId then .iconst ty imm else d.defOf v⟩
  | .replaceIadd a b =>
    ⟨fun v => if v = resultId then .iadd a b else d.defOf v⟩
  | _ => d

/-- Apply an emitted sequence to the value arena, in order. -/
def applyTrace (resultId : Nat) (d : DfgState) (t : List EInst) : DfgState :=
  t.foldl (applyEInst resultId) d

/-- Does an emitted instruction create or rewire basic blocks
(`make_ebb`, `insert_ebb`, `cfg.recompute_ebb`)? -/
def EInst.isCfgOp : EInst → Bool
  | .makeEbb => true
  | .insertEbb => true
  | .recomputeEbb _ => true
  | _ => false

/-- Is an emitted instruction a comparison (`icmp` or `icmp_imm`)? -/
def EInst.isCompare : EInst → Bool
  | .icmp _ _ _ => true
  | .icmpImm _ _ _ => true
  | _ => false

/-- Is an emitted instruction a conditional trap (`trapnz`)? -/
def EInst.isCondTrap : EInst → Bool
  | .trapnz _ _ => true
  | _ => false

/-- Is an emitted instruction the overflow-detecting addition
(`iadd_cout`)? -/
def EInst.isIaddCout : EInst → Bool
  | .iaddCout _ _ => true
  | _ => false

/-- Information about a global value declaration
(`ir::GlobalValueData` in `globalvalue.rs`).  `GlobalValue` handles are
`Nat` ids, `ExternalName` is rendered through its own display and so kept
abstract as `String`, `Offset32` and `Imm64` immediates are `Int`. -/
inductive GlobalValueData
  | VMContext
  | Load (base : Nat) (offset : Int) (global_type : Ty)
  | IAddImm (base : Nat) (offset : Int) (global_type : Ty)
  | Symbol (name : String) (offset : Int) (colocated : Bool)
deriving DecidableEq, Repr

/-- `GlobalValueData::symbol_name`: the name of a `Symbol`.  The source
returns `&ExternalName` directly — there is no error type in its signature —
and reaches `panic!("only symbols have names")` on every other variant; the
panic is modelled as `none`. -/
def GlobalValueData.symbol_name : GlobalValueData → Option String
  | .Symbol name _ _ => some name
  | _ => none

/-- `GlobalValueData::global_type`: the target pointer type for
`VMContext` and `Symbol`, the stored type for `IAddImm` and `Load`.
`pointer_ty` is the `isa.pointer_type()` of the target description. -/
def GlobalValueData.global_type (pointer_ty : Ty) : GlobalValueData → Ty
  | .VMContext => pointer_ty
  | .Symbol _ _ _ => pointer_ty
  | .IAddImm _ _ global_type => global_type
  | .Load _ _ global_type => global_type

/-- The `Display` implementation for `GlobalValueData`, as the sequence of
`write!` calls of the source accumulated left to right.  The display of a
`GlobalValue` handle, of an `Offset32` and of a nonzero `Imm64` are
implemented elsewhere (`ir/entities.rs`, `ir/immediates.rs`, not part of the
excerpt) and are abstracted as the rendering functions `gvRepr`,
`off32Repr` and `imm64Repr`. -/
def GlobalValueData.fmtStr (gvRepr : Nat → String) (off32Repr : Int → String)
    (imm64Repr : Int → String) (tyRepr : Ty → String) :
    GlobalValueData → String
  | .VMContext => "vmctx"
  | .Load base offset global_type =>
    "load." ++ tyRepr global_type ++ " notrap aligned " ++ gvRepr base
      ++ off32Repr offset
  | .IAddImm base offset global_type =>
    "iadd_imm." ++ tyRepr global_type ++ " " ++ gvRepr base ++ ", "
      ++ imm64Repr offset
  | .Symbol name offset colocated =>
    let s0 : String := ""
    let s1 := if colocated then s0 ++ "colocated " else s0
    let s2 := s1 ++ "symbol " ++ name
    let offset_val : Int := offset
    let s3 := if offset_val > 0 then s2 ++ "+" else s2
    let s4 := if offset_val ≠ 0 then s3 ++ imm64Repr offset else s3
    s4

/-! ### Helper lemmas -/

theorem Ty.eq_iff (a b : Ty) : a = b ↔ a.bits = b.bits := by
  cases a; cases b; simp

theorem applyTrace_nil (r : Nat) (d : DfgState) : applyTrace r d [] = d := rfl

theorem applyTrace_cons (r : Nat) (d : DfgState) (i : EInst) (t : List EInst) :
    applyTrace r d (i :: t) = applyTrace r (applyEInst r d i) t := rfl

theorem applyTrace_append (r : Nat) (d : DfgState) (l m : List EInst) :
    applyTrace r d (l ++ m) = applyTrace r (applyTrace r d l) m :=
  List.foldl_append _ _ _ _

/-- `compute_addr` never traps: the emitted address computation is
unconditionally safe to fall through. -/
theorem runTrace_compute_addr (w : Nat) (env : Env) (heap : HeapData)
    (addr_ty offset_ty : Ty) :
    runTrace w env (compute_addr heap addr_ty offset_ty) = none := by
  by_cases h : offset_ty = addr_ty <;>
    simp [compute_addr, h, runTrace, stepTrap]

/-- The effect of `compute_addr` on the value arena: the original result id
is redefined, in place, to `base + offset` with the offset zero-extended
exactly when the offset type differs from the address type; every other
value id keeps its definition. -/
theorem applyTrace_compute_addr (r : Nat) (d : DfgState) (heap : HeapData)
    (addr_ty offset_ty : Ty) :
    applyTrace r d (compute_addr heap addr_ty offset_ty) =
      ⟨fun v => if v = r then
          Expr.iadd (.globalValue addr_ty heap.base)
            (if offset_ty = addr_ty then Expr.offsetArg
             else Expr.uextend addr_ty Expr.offsetArg)
        else d.defOf v⟩ := by
  by_cases h : offset_ty = addr_ty <;>
    simp [compute_addr, h, applyTrace, applyEInst]

/-! ### Claims -/

/-- C8: `GlobalValueData::symbol_name` returns the stored name when the
record is the `Symbol` variant and fails fatally on `VMContext`, `Load` and
`IAddImm`.  The source signature returns `&ExternalName` directly — there is
no error type to return — and every non-`Symbol` arm reaches
`panic!("only symbols have names")`, modelled here by `none`. -/
theorem symbol_name_spec (name : String) (offset : Int) (colocated : Bool)
    (base : Nat) (off : Int) (gty : Ty) :
    (GlobalValueData.Symbol name offset colocated).symbol_name = some name ∧
    (GlobalValueData.VMContext).symbol_name = none ∧
    (GlobalValueData.Load base off gty).symbol_name = none ∧
    (GlobalValueData.IAddImm base off gty).symbol_name = none :=
  ⟨rfl, rfl, rfl, rfl⟩

/-- C10: the textual rendering of a `Symbol` global value writes the
prefix `"colocated "` exactly when the colocated flag is set, a leading
`"+"` exactly when the stored offset is strictly positive, and the offset
digits exactly when the offset is nonzero. -/
theorem symbol_rendering_format (gvRepr : Nat → String)
    (off32Repr imm64Repr : Int → String) (tyRepr : Ty → String)
    (name : String) (offset : Int) (colocated : Bool) :
    GlobalValueData.fmtStr gvRepr off32Repr imm64Repr tyRepr
        (.Symbol name offset colocated) =
      (if colocated then "colocated " else "") ++ "symbol " ++ name ++
        (if 0 < offset then "+" else "") ++
        (if offset ≠ 0 then imm64Repr offset else "") := by
  rcases lt_trichotomy (0 : Int) offset with h | h | h
  · have hne : offset ≠ 0 := by omega
    cases colocated <;>
      simp [GlobalValueData.fmtStr, h, hne, String.empty_append,
        String.append_empty]
  · subst h
    cases colocated <;>
      simp [GlobalValueData.fmtStr, String.empty_append, String.append_empty]
  · have hne : offset ≠ 0 := by omega
    have hnlt : ¬ (0 : Int) < offset := by omega
    cases colocated <;>
      simp [GlobalValueData.fmtStr, hne, hnlt, String.empty_append,
        String.append_empty]

/-- C9: for a dynamic-heap expansion with `access_size == 1` the emitted
check is the single unsigned `offset >= bound` comparison: the trace is
exactly the bound materialization, that comparison, its conditional trap,
and the shared address computation, with no overflow-detecting `iadd_cout`
and exactly one conditional trap and one comparison.  This holds for every
`min_size`, in particular `min_size = 0`, where `access_size > min_size`
also holds, so the `access_size == 1` case takes precedence over the
overflow-checking case. -/
theorem dynamic_access_one_single_compare (min_size : Int)
    (bound_gv base_gv : Nat) (oty aty : Ty) :
    dynamic_addr ⟨base_gv, min_size, .Dynamic bound_gv⟩ 1 bound_gv oty aty =
      .globalValue oty bound_gv ::
        .icmp .UnsignedGreaterThanOrEqual .offsetArg (.globalValue oty bound_gv) ::
        .trapnz
          (.icmp .UnsignedGreaterThanOrEqual .offsetArg (.globalValue oty bound_gv))
          .HeapOutOfBounds ::
        compute_addr ⟨base_gv, min_size, .Dynamic bound_gv⟩ aty oty ∧
    (dynamic_addr ⟨base_gv, min_size, .Dynamic bound_gv⟩ 1 bound_gv oty aty).any
      EInst.isIaddCout = false ∧
    (dynamic_addr ⟨base_gv, min_size, .Dynamic bound_gv⟩ 1 bound_gv oty aty).countP
      (fun i => i.isCondTrap) = 1 ∧
    (dynamic_addr ⟨base_gv, min_size, .Dynamic bound_gv⟩ 1 bound_gv oty aty).countP
      (fun i => i.isCompare) = 1 := by
  refine ⟨?_, ?_, ?_, ?_⟩ <;>
    by_cases h : oty = aty <;>
      simp [dynamic_addr, compute_addr, h, EInst.isIaddCout, EInst.isCondTrap,
        EInst.isCompare, List.countP_cons, List.countP_nil]

/-- C7: `expand_heap_addr` creates basic blocks or recomputes control-flow
edges exactly on the static-heap path with `access_size > bound`; every
dynamic-heap expansion and every static-heap expansion with
`access_size <= bound` performs no block surgery at all, leaving the
control-flow graph and block structure unchanged. -/
theorem cfg_modified_only_when_static_oob (heap : HeapData) (access_size : Nat)
    (oty aty : Ty) :
    (expand_heap_addr heap access_size oty aty).any EInst.isCfgOp = true ↔
      ∃ bound, heap.style = .Static bound ∧ bound < (access_size : Int) := by
  have hcompute : ∀ (hp : HeapData) (a o : Ty),
      (compute_addr hp a o).any EInst.isCfgOp = false := by
    intro hp a o
    by_cases h : o = a <;> simp [compute_addr, h, EInst.isCfgOp]
  obtain ⟨base, min_size, style⟩ := heap
  cases style with
  | Dynamic bgv =>
    have hfalse :
        (dynamic_addr ⟨base, min_size, .Dynamic bgv⟩ access_size bgv oty aty).any
          EInst.isCfgOp = false := by
      simp only [dynamic_addr]
      split
      · simp [List.any_append, hcompute, EInst.isCfgOp]
      · split <;> simp [List.any_append, hcompute, EInst.isCfgOp]
    simp [expand_heap_addr, hfalse]
  | Static bound =>
    simp only [expand_heap_addr]
    by_cases hb : bound < (access_size : Int)
    · constructor
      · intro _
        exact ⟨bound, rfl, hb⟩
      · intro _
        simp [static_addr, hb, EInst.isCfgOp]
    · have hfalse :
          (static_addr ⟨base, min_size, .Static bound⟩ access_size bound oty aty).any
            EInst.isCfgOp = false := by
        simp only [static_addr, if_neg hb]
        rw [List.any_append, hcompute, Bool.or_false]
        split
        · split <;> rfl
        · rfl
      simp [hfalse, hb]

/-- C2: for a static heap with `access_size > bound`, `static_addr` emits
exactly an unconditional heap-out-of-bounds trap, replaces the original
instruction's result in place — at its fixed result id `r`, with a zero
constant of the result's original type `aty` — creates a new ebb, splits
the current ebb immediately after the trap, recomputes the control-flow
edges of both the current and the new ebb, and returns: the trace contains
no comparison and no address computation.  Every value id other than `r`
keeps its definition, so pre-existing uses of the result observe the zero
constant without renumbering. -/
theorem static_oob_unconditional_trap (heap : HeapData) (access_size : Nat)
    (bound : Int) (oty aty : Ty) (r : Nat) (d : DfgState)
    (h : bound < (access_size : Int)) :
    static_addr heap access_size bound oty aty =
      [.trap .HeapOutOfBounds, .replaceIconst aty 0, .makeEbb, .insertEbb,
       .recomputeEbb .curr, .recomputeEbb .fresh] ∧
    applyTrace r d (static_addr heap access_size bound oty aty) =
      ⟨fun v => if v = r then .iconst aty 0 else d.defOf v⟩ ∧
    (static_addr heap access_size bound oty aty).any EInst.isCompare = false := by
  have ht : static_addr heap access_size bound oty aty =
      [.trap .HeapOutOfBounds, .replaceIconst aty 0, .makeEbb, .insertEbb,
       .recomputeEbb .curr, .recomputeEbb .fresh] := by
    simp [static_addr, h]
  refine ⟨ht, ?_, ?_⟩
  · rw [ht]; rfl
  · rw [ht]; rfl

/-- Witness for C2 at Scenario D of the spec: `Static{bound=16}`,
`access_size=32`, 32-bit offset, 64-bit address, result id 0. -/
theorem static_oob_unconditional_trap_witness :
    ((16 : Int) < ((32 : Nat) : Int)) ∧
    (static_addr ⟨0, 0, .Static 16⟩ 32 16 I32 I64 =
      [.trap .HeapOutOfBounds, .replaceIconst I64 0, .makeEbb, .insertEbb,
       .recomputeEbb .curr, .recomputeEbb .fresh] ∧
    applyTrace 0 ⟨fun _ => .offsetArg⟩ (static_addr ⟨0, 0, .Static 16⟩ 32 16 I32 I64) =
      ⟨fun v => if v = 0 then .iconst I64 0
                else DfgState.defOf ⟨fun _ => .offsetArg⟩ v⟩ ∧
    (static_addr ⟨0, 0, .Static 16⟩ 32 16 I32 I64).any EInst.isCompare = false) :=
  ⟨by decide,
   static_oob_unconditional_trap ⟨0, 0, .Static 16⟩ 32 16 I32 I64 0
     ⟨fun _ => .offsetArg⟩ (by decide)⟩

/-- C1: for a dynamic heap with `access_size <= min_size <= bound` (the
runtime bound value), the emitted bound check — `offset >= bound` when
`access_size == 1`, `offset > bound - access_size` otherwise, both unsigned
on the offset's type — traps exactly when `offset > bound - access_size`:
it never traps for `offset` in `[0, bound - access_size]` and always traps
for larger offsets. -/
theorem dynamic_check_traps_iff (min_size : Int) (bound_gv base_gv : Nat)
    (oty aty : Ty) (access_size : Nat) (env : Env) (boundV : Nat)
    (hgv : env.gvVal bound_gv = boundV)
    (ha : (access_size : Int) ≤ min_size)
    (hmb : min_size ≤ (boundV : Int))
    (hb : boundV < 2 ^ oty.bits)
    (_ho : env.offsetVal < 2 ^ oty.bits) :
    (runTrace oty.bits env
        (dynamic_addr ⟨base_gv, min_size, .Dynamic bound_gv⟩ access_size bound_gv
          oty aty)).isSome
      ↔ boundV - access_size < env.offsetVal := by
  have hab : (access_size : Int) ≤ (boundV : Int) := le_trans ha hmb
  have hab' : access_size ≤ boundV := by exact_mod_cast hab
  have hpow : (boundV : Int) < 2 ^ oty.bits := by exact_mod_cast hb
  by_cases h1 : (access_size : Int) = 1
  · have h1' : access_size = 1 := by exact_mod_cast h1
    have hb1 : 1 ≤ boundV := h1' ▸ hab'
    by_cases hcmp : boundV ≤ env.offsetVal
    · simp only [dynamic_addr, if_pos h1]
      simp [runTrace, stepTrap, Expr.eval, ccHolds, hgv, hcmp, runTrace_compute_addr]
      omega
    · simp only [dynamic_addr, if_pos h1]
      simp [runTrace, stepTrap, Expr.eval, ccHolds, hgv, hcmp, runTrace_compute_addr]
      omega
  · have hadj : immToNat oty.bits ((boundV : Int) + -(access_size : Int)) =
        boundV - access_size := by
      unfold immToNat
      rw [Int.emod_eq_of_lt (by omega) (by omega)]
      omega
    by_cases hcmp : boundV - access_size < env.offsetVal
    · simp only [dynamic_addr, if_neg h1, if_pos ha]
      simp [runTrace, stepTrap, Expr.eval, ccHolds, hgv, hadj, hcmp,
        runTrace_compute_addr]
    · simp only [dynamic_addr, if_neg h1, if_pos ha]
      simp [runTrace, stepTrap, Expr.eval, ccHolds, hgv, hadj, hcmp,
        runTrace_compute_addr]

/-- Witness for C1 at Scenario C scaled to a 4-bit offset type:
`min_size = 4`, `access_size = 4`, runtime bound 8, offset 5; the check
traps since `5 > 8 - 4`. -/
theorem dynamic_check_traps_iff_witness :
    ((⟨5, fun _ => 8⟩ : Env).gvVal 7 = 8 ∧
     ((4 : Nat) : Int) ≤ 4 ∧ (4 : Int) ≤ ((8 : Nat) : Int) ∧
     (8 : Nat) < 2 ^ (⟨4⟩ : Ty).bits ∧
     (⟨5, fun _ => 8⟩ : Env).offsetVal < 2 ^ (⟨4⟩ : Ty).bits) ∧
    ((runTrace (⟨4⟩ : Ty).bits ⟨5, fun _ => 8⟩
        (dynamic_addr ⟨0, 4, .Dynamic 7⟩ 4 7 ⟨4⟩ I64)).isSome
      ↔ 8 - 4 < (⟨5, fun _ => 8⟩ : Env).offsetVal) :=
  ⟨⟨rfl, by decide, by decide, by decide, by decide⟩,
   dynamic_check_traps_iff 4 7 0 ⟨4⟩ I64 4 ⟨5, fun _ => 8⟩ 8 rfl
     (by decide) (by decide) (by decide) (by decide)⟩

/-- C3 counterexample: a dynamic-heap expansion with
`access_size = 1 > min_size = 0` emits no overflow-detecting `iadd_cout`
at all — the `access_size == 1` case of `dynamic_addr` takes precedence
over the overflow-checking case, so the claim's premise
`access_size > min_size` does not select the overflow branch here. -/
theorem dynamic_overflow_case_skipped_counterexample :
    (0 : Int) < ((1 : Nat) : Int) ∧
    (dynamic_addr ⟨0, 0, .Dynamic 7⟩ 1 7 I32 I64).any EInst.isIaddCout = false := by
  refine ⟨by decide, ?_⟩
  simp [dynamic_addr, compute_addr, EInst.isIaddCout, I32, I64]

/-- C3 amended: for a dynamic heap with `access_size > min_size` and
`access_size ≠ 1`, the expansion computes the adjusted offset with the
overflow-detecting `iadd_cout` and emits the overflow trap before the bound
comparison; for any offset where `offset + access_size` overflows the
offset's type, the overflow trap fires and the bound comparison sits in the
unreached remainder of the trace. -/
theorem dynamic_overflow_trap_precedes_bound_check (min_size : Int)
    (bound_gv base_gv : Nat) (oty aty : Ty) (access_size : Nat) (env : Env)
    (hgt : min_size < (access_size : Int)) (hne : access_size ≠ 1)
    (hsz : access_size < 2 ^ oty.bits)
    (_ho : env.offsetVal < 2 ^ oty.bits)
    (hov : 2 ^ oty.bits ≤ env.offsetVal + access_size) :
    (dynamic_addr ⟨base_gv, min_size, .Dynamic bound_gv⟩ access_size bound_gv
        oty aty).any EInst.isIaddCout = true ∧
    runTrace oty.bits env
        (dynamic_addr ⟨base_gv, min_size, .Dynamic bound_gv⟩ access_size bound_gv
          oty aty) =
      some (.HeapOutOfBounds,
        .icmp .UnsignedGreaterThan
            (.iaddCoutSum .offsetArg (.iconst oty (access_size : Int)))
            (.globalValue oty bound_gv) ::
          .trapnz
            (.icmp .UnsignedGreaterThan
              (.iaddCoutSum .offsetArg (.iconst oty (access_size : Int)))
              (.globalValue oty bound_gv)) .HeapOutOfBounds ::
          compute_addr ⟨base_gv, min_size, .Dynamic bound_gv⟩ aty oty) := by
  have h1 : ¬ ((access_size : Int) = 1) := fun h => hne (by exact_mod_cast h)
  have h2 : ¬ ((access_size : Int) ≤ min_size) := not_le.mpr hgt
  have himm : immToNat oty.bits (access_size : Int) = access_size := by
    unfold immToNat
    rw [Int.emod_eq_of_lt (by omega) (by exact_mod_cast hsz)]
    omega
  constructor
  · simp [dynamic_addr, h1, h2, EInst.isIaddCout]
  · simp only [dynamic_addr, if_neg h1, if_neg h2]
    simp [runTrace, stepTrap, Expr.eval, himm, hov]

/-- Witness for the amended C3 at a 4-bit offset type: `min_size = 0`,
`access_size = 2`, offset 15; `15 + 2` overflows 4 bits, the overflow trap
fires and the bound comparison is never reached. -/
theorem dynamic_overflow_trap_precedes_bound_check_witness :
    ((0 : Int) < ((2 : Nat) : Int) ∧ (2 : Nat) ≠ 1 ∧
     (2 : Nat) < 2 ^ (⟨4⟩ : Ty).bits ∧
     (⟨15, fun _ => 3⟩ : Env).offsetVal < 2 ^ (⟨4⟩ : Ty).bits ∧
     2 ^ (⟨4⟩ : Ty).bits ≤ (⟨15, fun _ => 3⟩ : Env).offsetVal + 2) ∧
    ((dynamic_addr ⟨0, 0, .Dynamic 7⟩ 2 7 ⟨4⟩ I64).any EInst.isIaddCout = true ∧
     runTrace (⟨4⟩ : Ty).bits ⟨15, fun _ => 3⟩
        (dynamic_addr ⟨0, 0, .Dynamic 7⟩ 2 7 ⟨4⟩ I64) =
      some (.HeapOutOfBounds,
        .icmp .UnsignedGreaterThan
            (.iaddCoutSum .offsetArg (.iconst ⟨4⟩ ((2 : Nat) : Int)))
            (.globalValue ⟨4⟩ 7) ::
          .trapnz
            (.icmp .UnsignedGreaterThan
              (.iaddCoutSum .offsetArg (.iconst ⟨4⟩ ((2 : Nat) : Int)))
              (.globalValue ⟨4⟩ 7)) .HeapOutOfBounds ::
          compute_addr ⟨0, 0, .Dynamic 7⟩ I64 ⟨4⟩)) :=
  ⟨⟨by decide, by decide, by decide, by decide, by decide⟩,
   dynamic_overflow_trap_precedes_bound_check 0 7 0 ⟨4⟩ I64 2 ⟨15, fun _ => 3⟩
     (by decide) (by decide) (by decide) (by decide) (by decide)⟩

/-- C4: evaluation of the static check at the failing input
`Static{bound=2}`, `access_size=1` (so `limit = 1`, odd), 32-bit offset 0.
The emitted check is `offset >= limit - 1`, i.e. `offset >= 0`, which
rejects the in-bounds offset `0` (`0 + 1 <= 2`), while the direct
comparison `offset > limit` accepts it: the two rejection sets differ, so
the emitted odd-limit check is not algebraically identical to
`offset > limit` (the sound even immediate would be `limit + 1`). -/
theorem static_odd_limit_check_rejects_in_bounds_offset :
    (static_addr ⟨0, 0, .Static 2⟩ 1 2 I32 I64).any
        (fun i => i = .icmpImm .UnsignedGreaterThanOrEqual .offsetArg 0) = true ∧
    (runTrace 32 ⟨0, fun _ => 0⟩ (static_addr ⟨0, 0, .Static 2⟩ 1 2 I32 I64)).isSome
      = true ∧
    ¬ ((0 : Int) > 2 - 1) := by
  refine ⟨?_, ?_, by decide⟩ <;> decide

/-- C5: for a static heap with `access_size <= bound`, the runtime check is
omitted — no comparison and no conditional trap in the emitted trace — if
and only if the offset type is exactly 32 bits and
`limit = bound - access_size` is at least `0xffff_ffff`; and under that
condition every representable 32-bit offset satisfies
`offset + access_size <= bound`. -/
theorem static_check_elision_iff (base_gv : Nat) (min_size : Int)
    (access_size : Nat) (bound : Int) (oty aty : Ty)
    (h : (access_size : Int) ≤ bound) :
    (((static_addr ⟨base_gv, min_size, .Static bound⟩ access_size bound oty aty).any
          EInst.isCompare = false ∧
      (static_addr ⟨base_gv, min_size, .Static bound⟩ access_size bound oty aty).any
          EInst.isCondTrap = false) ↔
      (oty = I32 ∧ (0xffffffff : Int) ≤ bound - (access_size : Int))) ∧
    ((oty = I32 ∧ (0xffffffff : Int) ≤ bound - (access_size : Int)) →
      ∀ offsetV : Nat, offsetV < 2 ^ 32 →
        (offsetV : Int) + (access_size : Int) ≤ bound) := by
  have hb' : ¬ (bound < (access_size : Int)) := not_lt.mpr h
  have hnot : ¬ (oty ≠ I32 ∨ bound - (access_size : Int) < 0xffffffff) ↔
      (oty = I32 ∧ (0xffffffff : Int) ≤ bound - (access_size : Int)) := by
    rw [not_or, not_not, not_lt]
  have hcc : ∀ (hp : HeapData) (a o : Ty),
      (compute_addr hp a o).any EInst.isCompare = false ∧
      (compute_addr hp a o).any EInst.isCondTrap = false := by
    intro hp a o
    by_cases hh : o = a <;> simp [compute_addr, hh, EInst.isCompare, EInst.isCondTrap]
  constructor
  · by_cases hcond : oty ≠ I32 ∨ bound - (access_size : Int) < 0xffffffff
    · have hcmp : (static_addr ⟨base_gv, min_size, .Static bound⟩ access_size bound
          oty aty).any EInst.isCompare = true := by
        simp only [static_addr, if_neg hb', if_pos hcond, List.any_append]
        split <;> simp [EInst.isCompare]
      rw [hcmp]
      simp only [← hnot]
      simp [hcond]
    · have hchk : static_addr ⟨base_gv, min_size, .Static bound⟩ access_size bound
          oty aty = compute_addr ⟨base_gv, min_size, .Static bound⟩ aty oty := by
        simp only [static_addr, if_neg hb', if_neg hcond, List.nil_append]
      rw [hchk]
      simp [(hcc _ _ _).1, (hcc _ _ _).2, hnot.mp hcond]
  · rintro ⟨-, hlim⟩ offsetV hoff
    rw [show (2 : Nat) ^ 32 = 4294967296 from by norm_num] at hoff
    have hoff' : (offsetV : Int) < 4294967296 := by exact_mod_cast hoff
    omega

/-- Witness for C5: `Static{bound = 0xffff_ffff + 4}`, `access_size = 4`,
32-bit offset type — the limit is exactly `0xffff_ffff`, so the check is
elided and every 32-bit offset is in bounds. -/
theorem static_check_elision_iff_witness :
    ((4 : Nat) : Int) ≤ 4294967299 ∧
    ((((static_addr ⟨0, 0, .Static 4294967299⟩ 4 4294967299 I32 I64).any
          EInst.isCompare = false ∧
      (static_addr ⟨0, 0, .Static 4294967299⟩ 4 4294967299 I32 I64).any
          EInst.isCondTrap = false) ↔
      (I32 = I32 ∧ (0xffffffff : Int) ≤ 4294967299 - ((4 : Nat) : Int))) ∧
    ((I32 = I32 ∧ (0xffffffff : Int) ≤ 4294967299 - ((4 : Nat) : Int)) →
      ∀ offsetV : Nat, offsetV < 2 ^ 32 →
        (offsetV : Int) + ((4 : Nat) : Int) ≤ 4294967299)) :=
  ⟨by decide, static_check_elision_iff 0 0 4 4294967299 I32 I64 (by decide)⟩

/-- C6: after any expansion that reaches address materialization (every
dynamic expansion, and every static expansion with `access_size <= bound`),
the original instruction's result keeps its identity: the same value id `r`
is redefined, in place, to an integer addition of the resolved heap base at
the address-width type and the offset, the offset being zero-extended first
exactly when its type is narrower than the address-width type.  Every other
value id keeps its definition, so all pre-existing uses of `r` observe the
new address without renumbering. -/
theorem addr_result_identity (heap : HeapData) (access_size : Nat)
    (oty aty : Ty) (r : Nat) (d : DfgState)
    (hle : oty.bits ≤ aty.bits)
    (hpath : (∃ bgv, heap.style = .Dynamic bgv) ∨
             (∃ bound, heap.style = .Static bound ∧ (access_size : Int) ≤ bound)) :
    applyTrace r d (expand_heap_addr heap access_size oty aty) =
      ⟨fun v => if v = r then
          Expr.iadd (.globalValue aty heap.base)
            (if oty.bits < aty.bits then Expr.uextend aty Expr.offsetArg
             else Expr.offsetArg)
        else d.defOf v⟩ := by
  have hshape :
      (if oty = aty then Expr.offsetArg else Expr.uextend aty Expr.offsetArg) =
      (if oty.bits < aty.bits then Expr.uextend aty Expr.offsetArg
       else Expr.offsetArg) := by
    by_cases hq : oty = aty
    · have hnlt : ¬ oty.bits < aty.bits := by rw [hq]; omega
      rw [if_pos hq, if_neg hnlt]
    · have hne : oty.bits ≠ aty.bits := fun hh => hq ((Ty.eq_iff oty aty).mpr hh)
      have hlt : oty.bits < aty.bits := lt_of_le_of_ne hle hne
      rw [if_neg hq, if_pos hlt]
  rcases hpath with ⟨bgv, hst⟩ | ⟨bound, hst, hbd⟩
  · simp only [expand_heap_addr, hst, dynamic_addr]
    split
    · simp only [List.cons_append, List.nil_append, applyTrace_cons, applyEInst]
      rw [applyTrace_compute_addr]
      simp only [hshape]
    · split <;>
        (simp only [List.cons_append, List.nil_append, applyTrace_cons, applyEInst];
         rw [applyTrace_compute_addr];
         simp only [hshape])
  · simp only [expand_heap_addr, hst, static_addr, if_neg (not_lt.mpr hbd)]
    split
    · split <;>
        (simp only [List.cons_append, List.nil_append, applyTrace_cons, applyEInst];
         rw [applyTrace_compute_addr];
         simp only [hshape])
    · simp only [List.nil_append]
      rw [applyTrace_compute_addr]
      simp only [hshape]

/-- Witness for C6: a dynamic heap with base global value 3, access size 1,
32-bit offset and 64-bit address types, result id 0. -/
theorem addr_result_identity_witness :
    I32.bits ≤ I64.bits ∧
    applyTrace 0 ⟨fun _ => .offsetArg⟩ (expand_heap_addr ⟨3, 0, .Dynamic 7⟩ 1 I32 I64) =
      ⟨fun v => if v = 0 then
          Expr.iadd (.globalValue I64 3)
            (if I32.bits < I64.bits then Expr.uextend I64 Expr.offsetArg
             else Expr.offsetArg)
        else DfgState.defOf ⟨fun _ => .offsetArg⟩ v⟩ :=
  ⟨by decide,
   addr_result_identity ⟨3, 0, .Dynamic 7⟩ 1 I32 I64 0 ⟨fun _ => .offsetArg⟩
     (by decide) (Or.inl ⟨7, rfl⟩)⟩
